import Mathlib

/-!
Verification development for the `diverter` repository.

Shallow embedding of the VDF scanner (`src/vdf/scanner.rs`), the VDF parser
and document model (`src/vdf/parser.rs`), the `OkIter` adapter
(`src/util.rs`), the combined `scan_parse` entry point and the
`LoginUser::from_vdf` extractor (`src/vdf/mod.rs`), the two `Username`
validators (`src/username.rs` and `src/lib.rs`), and the graceful-restart
composition of `main.rs`.

Conventions:
- Byte slices are modelled as `List Nat` (each element a byte value).
- `usize` is modelled as `Nat`; the target is 64-bit, so `Id::ROOT = !0`
  is `2 ^ 64 - 1`.
- Pointer addresses (`lexeme.as_ptr() as usize`) are modelled as byte
  offsets into the scanned source, i.e. a base address of `0`.
- Rust loops whose termination is not structural are modelled with an
  explicit fuel parameter counting recursive calls / loop iterations;
  `none` means the run did not finish within the given fuel, and a
  `none` result for every fuel means the Rust code does not terminate.
-/

/-- Bytes of an ASCII string literal (used to write byte-slice constants). -/
def bytes (s : String) : List Nat := s.toList.map Char.toNat

/-- A `Document` element ID (`Id(pub usize)` in `parser.rs`; re-exported as `ExprId` by `vdf/mod.rs`, which name we use since `Id` exists in Lean). -/
structure ExprId where
  val : Nat
deriving DecidableEq, Repr

/-- `Id::ROOT = Id(!0)` on a 64-bit target. -/
def ExprId.ROOT : ExprId := ⟨2 ^ 64 - 1⟩

/-- A VDF token type (`TokenType` in `scanner.rs`). -/
inductive TokenType where
  | braceLeft
  | braceRight
  | string
deriving DecidableEq, Repr

/-- A VDF token (`Token` in `scanner.rs`).  `lexeme` is the byte slice of
the token; `addr` models the address of its first byte (`as_ptr`), taken
relative to the start of the scanned source. -/
structure Token where
  type : TokenType
  lexeme : List Nat
  addr : Nat
deriving DecidableEq, Repr

/-- A key value (`Value` in `parser.rs`). -/
inductive Value where
  | string (s : List Nat)
  | subkeys (id : ExprId)
deriving DecidableEq, Repr

/-- A key-value pair (`KeyValue` in `parser.rs`). -/
structure KeyValue where
  parent : ExprId
  key : List Nat
  value : Value
deriving DecidableEq, Repr

/-- A VDF document (`Document(pub Vec<KeyValue>)`), as its row list. -/
abbrev Document := List KeyValue

/-- `Document::subkeys`: linear scan for the first row whose `parent` and
`key` match; returns the group id only when that first match holds a
`Subkeys` value. -/
def Document.subkeys (doc : Document) (a : ExprId) (key : List Nat) : Option ExprId :=
  match doc with
  | [] => none
  | r :: rest =>
    if r.parent = a ∧ r.key = key then
      match r.value with
      | .subkeys sub => some sub
      | .string _ => none
    else Document.subkeys rest a key

/-- `Document::value_str`: linear scan for the first row whose `parent` and
`key` match; returns the string only when that first match holds a
`String` value. -/
def Document.value_str (doc : Document) (a : ExprId) (name : List Nat) : Option (List Nat) :=
  match doc with
  | [] => none
  | r :: rest =>
    if r.parent = a ∧ r.key = name then
      match r.value with
      | .string s => some s
      | .subkeys _ => none
    else Document.value_str rest a name

/-- Parse error (`Error` in `parser.rs`). -/
inductive ParseError where
  | UnexpectedBraceLeftNoName
  | UnexpectedBraceRightNoMatch
  | ExpectedKeyValueAfterKeyName
deriving DecidableEq, Repr

/-- `unsurround`: removes the first and last bytes (`&s[1..s.len() - 1]`). -/
def unsurround (l : List Nat) : List Nat := (l.drop 1).dropLast

/-- `ParseOneTerminal` in `parser.rs`. -/
inductive ParseOneTerminal where
  | blockEnd
  | eof
  | yld
deriving DecidableEq, Repr

section Username

/-- A `Username` validation error (`UsernameError`, identical variant set in
`src/username.rs` and `src/lib.rs`). -/
inductive UsernameError where
  | TooShort
  | TooLong
  | IllegalCharacters
deriving DecidableEq, Repr

/-- The byte class `[a-zA-Z0-9_]` tested by both `try_from` loops. -/
def legalUsernameByte (c : Nat) : Bool :=
  (97 ≤ c && c ≤ 122) || (48 ≤ c && c ≤ 57) || (65 ≤ c && c ≤ 90) || c == 95

/-- `u8::to_ascii_lowercase`. -/
def toLowerByte (c : Nat) : Nat := if 65 ≤ c && c ≤ 90 then c + 32 else c

/-- The validation/copy loop shared by both `try_from` implementations:
checks every byte against `[a-zA-Z0-9_]` (failing with `IllegalCharacters`
at the first illegal byte) and produces the lowercase-folded bytes. -/
def lowerLegal : List Nat → Except UsernameError (List Nat)
  | [] => .ok []
  | c :: cs =>
    if legalUsernameByte c then (lowerLegal cs).map (fun rest => toLowerByte c :: rest)
    else .error .IllegalCharacters

/-- A `Username` value: `data` is the initialized prefix of the 33-byte
buffer (lowercased bytes then a NUL), `len` the stored length (input
length plus the NUL terminator). -/
structure Username where
  data : List Nat
  len : Nat
deriving DecidableEq, Repr

/-- `Username::as_bytes_with_nul` (the first `len` buffer bytes). -/
def Username.as_bytes_with_nul (u : Username) : List Nat := u.data.take u.len

/-- `Username::as_bytes` (`&with_nul[..with_nul.len() - 1]`). -/
def Username.as_bytes (u : Username) : List Nat := u.as_bytes_with_nul.dropLast

/-- `Username::try_from` of `src/username.rs`: note the bounds tests are
`username.len() >= MAX_LEN` and `username.len() <= MIN_LEN` with
`MAX_LEN = 32`, `MIN_LEN = 3`. -/
def usernameRsTryFrom (l : List Nat) : Except UsernameError Username :=
  if 32 ≤ l.length then .error .TooLong
  else if l.length ≤ 3 then .error .TooShort
  else (lowerLegal l).map (fun low => ⟨low ++ [0], l.length + 1⟩)

/-- `Username::try_from` of `src/lib.rs`: the bounds tests there are
`value.len() > MAX_LEN` and `value.len() < MIN_LEN`. -/
def libTryFrom (l : List Nat) : Except UsernameError Username :=
  if 32 < l.length then .error .TooLong
  else if l.length < 3 then .error .TooShort
  else (lowerLegal l).map (fun low => ⟨low ++ [0], l.length + 1⟩)

end Username

section Scanner

/-- The scanner state (`Scanner` in `scanner.rs`). -/
structure Scanner where
  source : List Nat
  start : Nat
  current : Nat
deriving DecidableEq, Repr

/-- `Scanner::new`. -/
def Scanner.new (source : List Nat) : Scanner := ⟨source, 0, 0⟩

/-- A lexing error (`Error` in `scanner.rs`). -/
inductive ScanError where
  | UnexpectedToken (c : Nat)
  | UnterminatedString
deriving DecidableEq, Repr

/-- `Scanner::token`: the token whose lexeme spans `start..current`; its
model address is `start` (source base address 0). -/
def Scanner.token (s : Scanner) (t : TokenType) : Token :=
  ⟨t, (s.source.drop s.start).take (s.current - s.start), s.start⟩

/-- `Scanner::string_tail`: consume bytes after the opening quote until an
unescaped closing quote (a backslash consumes two bytes), or fail with
`UnterminatedString` at end of input.  `source.get current` is modelled by
the bounds test plus indexing. -/
def stringTail (s : Scanner) : (Except ScanError Token) × Scanner :=
  if hlt : s.current < s.source.length then
    let c := s.source[s.current]
    if c = 34 then
      let s1 : Scanner := ⟨s.source, s.start, s.current + 1⟩
      (.ok (s1.token .string), s1)
    else if c = 92 then stringTail ⟨s.source, s.start, s.current + 2⟩
    else stringTail ⟨s.source, s.start, s.current + 1⟩
  else (.error .UnterminatedString, s)
termination_by s.source.length - s.current
decreasing_by
  all_goals omega

/-- `u8::is_ascii_whitespace` (space, tab, line feed, form feed, carriage
return). -/
def isAsciiWhitespace (c : Nat) : Bool := c == 32 || c == 9 || c == 10 || c == 12 || c == 13

/-- `<Scanner as Iterator>::next`: returns the yielded item (if any) and
the scanner state after the call.  `self.start = self.current` happens on
entry; `advance` always increments `current`. -/
def scannerNext (s : Scanner) : Option (Except ScanError Token) × Scanner :=
  if hlt : s.current < s.source.length then
    let c := s.source[s.current]
    let s1 : Scanner := ⟨s.source, s.current, s.current + 1⟩
    if isAsciiWhitespace c then scannerNext s1
    else if c = 34 then
      let r := stringTail s1
      (some r.1, r.2)
    else if c = 123 then (some (.ok (s1.token .braceLeft)), s1)
    else if c = 125 then (some (.ok (s1.token .braceRight)), s1)
    else (some (.error (.UnexpectedToken c)), s1)
  else (none, ⟨s.source, s.current, s.current + 1⟩)
termination_by s.source.length - s.current
decreasing_by
  omega

end Scanner

section OkIterAndParser

/-- The `OkIter` adapter state specialised to the scanner
(`OkIter<Token, ScanError, Scanner>` in `util.rs`). -/
structure OkState where
  scanner : Scanner
  error : Option ScanError
deriving DecidableEq, Repr

/-- `OkIter::new`. -/
def OkState.new (source : List Nat) : OkState := ⟨Scanner.new source, none⟩

/-- `<OkIter as Iterator>::next`: once an error has been recorded every
call returns `None` without touching the inner iterator; otherwise pull
the scanner, record an `Err` item (yielding `None`), and pass `Ok` items
through. -/
def okNext (st : OkState) : Option Token × OkState :=
  match st.error with
  | some _ => (none, st)
  | none =>
    match scannerNext st.scanner with
    | (none, s1) => (none, ⟨s1, none⟩)
    | (some (.ok t), s1) => (some t, ⟨s1, none⟩)
    | (some (.error e), s1) => (none, ⟨s1, some e⟩)

/-- Pulling tokens from a plain list (how claims about `parse` over a given
token sequence instantiate the token-iterator argument). -/
def listNext : List Token → Option Token × List Token
  | [] => (none, [])
  | t :: ts => (some t, ts)

mutual

/-- `parse_one`, generically over the token iterator (state type `sigma`,
stepper `next`), with explicit fuel bounding the number of recursive
calls/loop iterations.  The result carries the `ParseOneTerminal`, the
rows this call pushed onto the document (in push order), and the iterator
state afterwards; `none` means the run did not finish within `fuel`. -/
def parseOneG {σ : Type} (next : σ → Option Token × σ) :
    Nat → σ → ExprId → Bool →
    Option ((Except ParseError (ParseOneTerminal × List KeyValue)) × σ)
  | 0, _, _, _ => none
  | fuel + 1, st, parent, braceTerminal =>
    match next st with
    | (none, st1) => some (.ok (.eof, []), st1)
    | (some head, st1) =>
      match head.type with
      | .braceLeft => some (.error .UnexpectedBraceLeftNoName, st1)
      | .braceRight =>
        if braceTerminal then some (.ok (.blockEnd, []), st1)
        else some (.error .UnexpectedBraceRightNoMatch, st1)
      | .string =>
        match next st1 with
        | (none, st2) => some (.error .ExpectedKeyValueAfterKeyName, st2)
        | (some value, st2) =>
          match value.type with
          | .string =>
            some (.ok (.yld, [⟨parent, unsurround head.lexeme,
              .string (unsurround value.lexeme)⟩]), st2)
          | .braceLeft =>
            let subParent : ExprId := ⟨head.addr⟩
            match parseLoopG next fuel st2 subParent with
            | none => none
            | some (.error e, st3) => some (.error e, st3)
            | some (.ok rows, st3) =>
              some (.ok (.yld,
                ⟨parent, unsurround head.lexeme, .subkeys subParent⟩ :: rows), st3)
          | .braceRight => some (.error .UnexpectedBraceRightNoMatch, st2)

/-- The `loop` in `parse_one`'s subkeys branch: repeatedly `parse_one` with
the fresh parent and `brace_terminal = true`, stopping only on `BlockEnd`
(an `Eof` result loops again, exactly as in the source). -/
def parseLoopG {σ : Type} (next : σ → Option Token × σ) :
    Nat → σ → ExprId →
    Option ((Except ParseError (List KeyValue)) × σ)
  | 0, _, _ => none
  | fuel + 1, st, subParent =>
    match parseOneG next fuel st subParent true with
    | none => none
    | some (.error e, st1) => some (.error e, st1)
    | some (.ok (.blockEnd, rows), st1) => some (.ok rows, st1)
    | some (.ok (_, rows), st1) =>
      match parseLoopG next fuel st1 subParent with
      | none => none
      | some (.error e, st2) => some (.error e, st2)
      | some (.ok rows2, st2) => some (.ok (rows ++ rows2), st2)
end

/-- The `loop` in `parse`: call `parse_one` at `ROOT` with
`brace_terminal = false`; an `Err` propagates, a result `!= Eof` breaks
and yields the document built so far, and an `Eof` result loops again
(exactly as in the source). -/
def parseTopG {σ : Type} (next : σ → Option Token × σ) :
    Nat → σ → List KeyValue →
    Option ((Except ParseError (List KeyValue)) × σ)
  | 0, _, _ => none
  | fuel + 1, st, acc =>
    match parseOneG next fuel st .ROOT false with
    | none => none
    | some (.error e, st1) => some (.error e, st1)
    | some (.ok (term, rows), st1) =>
      if term = .eof then parseTopG next fuel st1 (acc ++ rows)
      else some (.ok (acc ++ rows), st1)

/-- `parse`, generically over the token iterator. -/
def parseG {σ : Type} (next : σ → Option Token × σ) (fuel : Nat) (st : σ) :
    Option ((Except ParseError (List KeyValue)) × σ) :=
  parseTopG next fuel st []

/-- `parse` on a finite token sequence (the document part only). -/
def parseF (fuel : Nat) (toks : List Token) : Option (Except ParseError (List KeyValue)) :=
  match parseG listNext fuel toks with
  | none => none
  | some (r, _) => some r

end OkIterAndParser

section ScanParseAndExtractor

/-- `ScanParseError` in `vdf/mod.rs`. -/
inductive ScanParseError where
  | ScanError (e : ScanError)
  | ParseError (e : ParseError)
deriving DecidableEq, Repr

/-- `scan_parse`: wrap the scanner in `OkIter`, run `parse` on it, then
return the recorded scan error if there is one and the parse result
otherwise.  `none` means the call does not return within `fuel`. -/
def scan_parse (fuel : Nat) (source : List Nat) : Option (Except ScanParseError (List KeyValue)) :=
  match parseG okNext fuel (OkState.new source) with
  | none => none
  | some (result, st) =>
    match st.error with
    | some e => some (.error (.ScanError e))
    | none =>
      match result with
      | .ok doc => some (.ok doc)
      | .error e => some (.error (.ParseError e))

/-- A login user record (`LoginUser` in `vdf/mod.rs`). -/
structure LoginUser where
  username : List Nat
  nickname : List Nat
  allow_auto_login : Bool
deriving DecidableEq, Repr

/-- `LoginUserVdfError` in `vdf/mod.rs`. -/
inductive LoginUserVdfError where
  | ExpectedUsersSubkeys
  | ExpectedAccountNameKey
  | ExpectedPersonaNameKey
  | ExpectedUserEntryToBeSubkeys
deriving DecidableEq, Repr

/-- `LoginUser::from_vdf`, with the lazy iterator materialised as the list
of its items (one per row of the document whose parent is the resolved
`"users"` group id, in document order). -/
def LoginUser.from_vdf (document : Document) :
    Except LoginUserVdfError (List (Except LoginUserVdfError LoginUser)) :=
  match document.subkeys .ROOT (bytes "users") with
  | none => .error .ExpectedUsersSubkeys
  | some usersSub =>
    .ok ((document.filter (fun row => decide (row.parent = usersSub))).map (fun userSub =>
      match userSub.value with
      | .subkeys userKeyvals =>
        match document.value_str userKeyvals (bytes "AccountName") with
        | none => .error .ExpectedAccountNameKey
        | some username =>
          match document.value_str userKeyvals (bytes "PersonaName") with
          | none => .error .ExpectedPersonaNameKey
          | some nickname =>
            .ok ⟨username, nickname,
              match document.value_str userKeyvals (bytes "AllowAutoLogin") with
              | none => false
              | some v => decide (v ≠ bytes "0")⟩
      | .string _ => .error .ExpectedUserEntryToBeSubkeys))

end ScanParseAndExtractor

section RestartComposition

/-- The error type of `steam.rs` (`Error`), each lifecycle variant carrying
the native error code (`io::Error::from_raw_os_error` is modelled by the
raw code). -/
inductive SteamError where
  | ReadSteamRegistry (code : Nat)
  | WriteSteamRegistry (code : Nat)
  | LaunchSteam (code : Nat)
  | WaitSteamExit (code : Nat)
  | EnumProcesses (code : Nat)
  | KillSteam (code : Nat)
  | InvalidUsernameInRegistry (e : UsernameError)
  | VdfOpen (code : Nat)
deriving DecidableEq, Repr

/-- Observable steps of the `Command::Set` restart composition in
`main.rs` (lines 63-96): which Steam operation is invoked and what is
reported about its outcome, in program order. -/
inductive RestartEvent where
  | callShutdownPoll
  | callKill
  | reportKilled
  | reportKillFailed (e : SteamError)
  | callLaunch
  | callLaunchFast
  | reportLaunched
  | reportLaunchFailed (e : SteamError)
deriving DecidableEq, Repr

/-- The graceful/forceful restart composition of `main.rs` (the body run
when `restart || graceful || verify` holds and `Steam::new()` succeeded),
as a pure function of the outcomes the Steam client operations would
return: pick `shutdown_poll` when graceful else `kill`, report the kill
result (failure is reported and execution continues), then invoke
`launch` when `verify` else `launch_fast` and report its result. -/
def restartSteam (graceful verify : Bool)
    (shutdownPollResult : Except SteamError Unit)
    (killResult : Except SteamError Bool)
    (launchResult launchFastResult : Except SteamError Unit) : List RestartEvent :=
  let callKillEvt : RestartEvent :=
    if graceful then .callShutdownPoll else .callKill
  let killRes : Except SteamError Unit :=
    if graceful then shutdownPollResult else killResult.map (fun _ => ())
  let reportKillEvt : RestartEvent :=
    match killRes with
    | .ok _ => .reportKilled
    | .error e => .reportKillFailed e
  let callLaunchEvt : RestartEvent :=
    if verify then .callLaunch else .callLaunchFast
  let launchRes : Except SteamError Unit :=
    if verify then launchResult else launchFastResult
  let reportLaunchEvt : RestartEvent :=
    match launchRes with
    | .ok _ => .reportLaunched
    | .error e => .reportLaunchFailed e
  [callKillEvt, reportKillEvt, callLaunchEvt, reportLaunchEvt]

end RestartComposition

section DerivedDefinitions

/-- The item yielded by the `(k+1)`-th `Scanner::next` call starting from
state `s`, together with the state after it. -/
def iterateScanner : Nat → Scanner → Option (Except ScanError Token) × Scanner
  | 0, s => scannerNext s
  | k + 1, s => iterateScanner k (scannerNext s).2

/-- The items yielded by repeatedly calling `Scanner::next` (at most `fuel`
calls, stopping at the first `None`): the token/error sequence a consumer
of the scanner iterator observes. -/
def scanListF : Nat → Scanner → List (Except ScanError Token)
  | 0, _ => []
  | fuel + 1, s =>
    match scannerNext s with
    | (none, _) => []
    | (some item, s1) => item :: scanListF fuel s1

/-- Per-child extraction as the record-extractor contract describes it: a
child row that is not a subkey group yields `ExpectedUserEntryToBeSubkeys`;
otherwise `AccountName` and `PersonaName` must resolve through
`value_str` (else the corresponding error), and `allow_auto_login`
defaults to `false` when `AllowAutoLogin` is absent and is `true` for any
present value other than the literal `"0"`. -/
def specExtractUser (doc : Document) (row : KeyValue) : Except LoginUserVdfError LoginUser :=
  match row.value with
  | .string _ => .error .ExpectedUserEntryToBeSubkeys
  | .subkeys k =>
    match doc.value_str k (bytes "AccountName"), doc.value_str k (bytes "PersonaName") with
    | none, _ => .error .ExpectedAccountNameKey
    | some _, none => .error .ExpectedPersonaNameKey
    | some u, some n =>
      .ok ⟨u, n, ((doc.value_str k (bytes "AllowAutoLogin")).map
        (fun v => decide (v ≠ bytes "0"))).getD false⟩

/-- The token sequence of `"k" "v"` (string lexemes keep their quotes;
addresses are the byte offsets in that source text). -/
def toksKV : List Token :=
  [⟨.string, bytes "\x22k\x22", 0⟩, ⟨.string, bytes "\x22v\x22", 4⟩]

/-- The token sequence of `"k1" "v1" "k2" "v2"`: two well-formed top-level
entries. -/
def toksKV2 : List Token :=
  [⟨.string, bytes "\x22k1\x22", 0⟩, ⟨.string, bytes "\x22v1\x22", 5⟩,
   ⟨.string, bytes "\x22k2\x22", 10⟩, ⟨.string, bytes "\x22v2\x22", 15⟩]

/-- The token sequence of `"a" \x7b`: a key name and an opened group, then
end of input. -/
def toksUnterminated : List Token :=
  [⟨.string, bytes "\x22a\x22", 0⟩, ⟨.braceLeft, bytes "\x7b", 4⟩]

/-- The source text `"outer" \x7b "inner" "val" \x7d`. -/
def src8 : List Nat := bytes "\x22outer\x22 \x7b \x22inner\x22 \x22val\x22 \x7d"

/-- The token stream of `src8` (as produced by the scanner; checked in the
claim theorem). -/
def toks8 : List Token :=
  [⟨.string, bytes "\x22outer\x22", 0⟩, ⟨.braceLeft, bytes "\x7b", 8⟩,
   ⟨.string, bytes "\x22inner\x22", 10⟩, ⟨.string, bytes "\x22val\x22", 18⟩,
   ⟨.braceRight, bytes "\x7d", 24⟩]

/-- The document produced by parsing `toks8`: a subkey-group row under
`ROOT` keyed `outer` with the fresh id `⟨0⟩` (the offset of the `"outer"`
lexeme), then a string row under that id. -/
def doc8 : Document :=
  [⟨.ROOT, bytes "outer", .subkeys ⟨0⟩⟩, ⟨⟨0⟩, bytes "inner", .string (bytes "val")⟩]

/-- The source text `"users" \x7b "1" \x7b "AccountName" "alice" "PersonaName" "Alice" \x7d \x7d`. -/
def usersSrc : List Nat :=
  bytes "\x22users\x22 \x7b \x221\x22 \x7b \x22AccountName\x22 \x22alice\x22 \x22PersonaName\x22 \x22Alice\x22 \x7d \x7d"

/-- The token stream of `usersSrc` (as produced by the scanner; checked in
the claim theorem). -/
def usersToks : List Token :=
  [⟨.string, bytes "\x22users\x22", 0⟩, ⟨.braceLeft, bytes "\x7b", 8⟩,
   ⟨.string, bytes "\x221\x22", 10⟩, ⟨.braceLeft, bytes "\x7b", 14⟩,
   ⟨.string, bytes "\x22AccountName\x22", 16⟩, ⟨.string, bytes "\x22alice\x22", 30⟩,
   ⟨.string, bytes "\x22PersonaName\x22", 38⟩, ⟨.string, bytes "\x22Alice\x22", 52⟩,
   ⟨.braceRight, bytes "\x7d", 60⟩, ⟨.braceRight, bytes "\x7d", 62⟩]

/-- The document parsing `usersToks` produces (fresh group ids are
the offsets of the `"users"` and `"1"` lexemes). -/
def usersDoc : Document :=
  [⟨.ROOT, bytes "users", .subkeys ⟨0⟩⟩,
   ⟨⟨0⟩, bytes "1", .subkeys ⟨10⟩⟩,
   ⟨⟨10⟩, bytes "AccountName", .string (bytes "alice")⟩,
   ⟨⟨10⟩, bytes "PersonaName", .string (bytes "Alice")⟩]

/-- A document whose first top-level `users` row is a string row while a
later top-level `users` row is a subkey group. -/
def docShadow : Document :=
  [⟨.ROOT, bytes "users", .string (bytes "x")⟩,
   ⟨.ROOT, bytes "users", .subkeys ⟨7⟩⟩]

end DerivedDefinitions

section MoreDerivedDefinitions

/-- A lone `\x7b` token. -/
def tokBraceLeft : Token := ⟨.braceLeft, bytes "\x7b", 0⟩

/-- A lone `\x7d` token. -/
def tokBraceRight : Token := ⟨.braceRight, bytes "\x7d", 0⟩

/-- The source text `"a" @`: a complete string literal followed by a byte
the scanner rejects, reached while the parser wants a key value. -/
def srcKeyValueAt : List Nat := bytes "\x22a\x22 @"

/-- The source text `\x7d@`: the parser fails on the `\x7d` token before the
scanner reaches the rejected `@` byte. -/
def srcBraceAt : List Nat := bytes "\x7d@"

/-- The source text `@`: the scanner errors before any token is produced. -/
def srcAt : List Nat := bytes "@"

/-- A document whose first `(parent, key)` match holds a string value and a
later match holds a subkey group. -/
def docStringFirst : Document :=
  [⟨⟨1⟩, bytes "x", .string (bytes "v")⟩, ⟨⟨1⟩, bytes "x", .subkeys ⟨9⟩⟩]

/-- A document whose first `(parent, key)` match holds a subkey group and a
later match holds a string value. -/
def docSubkeysFirst : Document :=
  [⟨⟨1⟩, bytes "x", .subkeys ⟨9⟩⟩, ⟨⟨1⟩, bytes "x", .string (bytes "v")⟩]

/-- Decidable equality for `Except` results, to let concrete runs of the
embedded functions be checked by `decide`. -/
instance exceptDecEq {ε α : Type} [DecidableEq ε] [DecidableEq α] : DecidableEq (Except ε α) :=
  fun x y =>
    match x, y with
    | .ok a, .ok b =>
      if h : a = b then isTrue (by rw [h]) else isFalse (fun hc => h (Except.ok.inj hc))
    | .error a, .error b =>
      if h : a = b then isTrue (by rw [h]) else isFalse (fun hc => h (Except.error.inj hc))
    | .ok _, .error _ => isFalse (fun hc => Except.noConfusion hc)
    | .error _, .ok _ => isFalse (fun hc => Except.noConfusion hc)

end MoreDerivedDefinitions

section ParserLemmas

/-- A token source that yields nothing produces an immediate `Eof`. -/
theorem parseOneG_nil_eof {σ : Type} (next : σ → Option Token × σ) (st : σ)
    (hst : next st = (none, st)) (fuel : Nat) (p : ExprId) (b : Bool) :
    parseOneG next (fuel + 1) st p b = some (.ok (.eof, []), st) := by
  rw [parseOneG.eq_def]
  simp [hst]

/-- On an exhausted token source the subkeys loop never finishes: the
sub-`parse_one` keeps returning `Eof`, which the loop treats like `Yield`
and iterates again, so no amount of fuel produces a result. -/
theorem parseLoopG_stuck {σ : Type} (next : σ → Option Token × σ) (st : σ)
    (hst : next st = (none, st)) (sub : ExprId) :
    ∀ fuel : Nat, parseLoopG next fuel st sub = none := by
  intro fuel
  induction fuel with
  | zero => rfl
  | succ f ihf =>
    rw [parseLoopG.eq_def]
    cases f with
    | zero => rfl
    | succ g =>
      simp only [parseOneG_nil_eof next st hst g, ihf]

/-- On an exhausted token source the top-level `parse` loop never finishes:
`parse_one` keeps returning `Eof` and the loop condition
`!= ParseOneTerminal::Eof` never breaks it. -/
theorem parseTopG_stuck {σ : Type} (next : σ → Option Token × σ) (st : σ)
    (hst : next st = (none, st)) (acc : List KeyValue) :
    ∀ fuel : Nat, parseTopG next fuel st acc = none := by
  intro fuel
  induction fuel generalizing acc with
  | zero => rfl
  | succ f ihf =>
    rw [parseTopG.eq_def]
    cases f with
    | zero => rfl
    | succ g =>
      simp [parseOneG_nil_eof next st hst g]
      exact ihf acc

/-- Fuel monotonicity: a run of `parse_one` / the subkeys loop / the
top-level loop that finishes within some fuel returns the same answer with
one more unit of fuel.  Fuel only bounds the iteration count, so any
finished run is the run of the Rust code. -/
theorem parse_mono_aux {σ : Type} (next : σ → Option Token × σ) :
    ∀ fuel : Nat,
      (∀ st p b r, parseOneG next fuel st p b = some r →
          parseOneG next (fuel + 1) st p b = some r) ∧
      (∀ st sub r, parseLoopG next fuel st sub = some r →
          parseLoopG next (fuel + 1) st sub = some r) ∧
      (∀ st acc r, parseTopG next fuel st acc = some r →
          parseTopG next (fuel + 1) st acc = some r) := by
  intro fuel
  induction fuel with
  | zero =>
    refine ⟨?_, ?_, ?_⟩
    · intro st p b r h; simp [parseOneG] at h
    · intro st sub r h; simp [parseLoopG] at h
    · intro st acc r h; simp [parseTopG] at h
  | succ f ih =>
    obtain ⟨ihOne, ihLoop, ihTop⟩ := ih
    refine ⟨?_, ?_, ?_⟩
    · intro st p b r h
      rw [parseOneG.eq_def] at h ⊢
      cases hn : next st with
      | mk o st1 =>
        cases o with
        | none => simp only [hn] at h ⊢; exact h
        | some head =>
          cases htt : head.type with
          | braceLeft => simp only [hn, htt] at h ⊢; exact h
          | braceRight => simp only [hn, htt] at h ⊢; exact h
          | string =>
            cases hn2 : next st1 with
            | mk o2 st2 =>
              cases o2 with
              | none => simp only [hn, htt, hn2] at h ⊢; exact h
              | some value =>
                cases hvt : value.type with
                | string => simp only [hn, htt, hn2, hvt] at h ⊢; exact h
                | braceRight => simp only [hn, htt, hn2, hvt] at h ⊢; exact h
                | braceLeft =>
                  simp only [hn, htt, hn2, hvt] at h ⊢
                  cases hl : parseLoopG next f st2 ⟨head.addr⟩ with
                  | none => simp only [hl] at h; exact Option.noConfusion h
                  | some val =>
                    obtain ⟨res, st3⟩ := val
                    have hl2 := ihLoop st2 ⟨head.addr⟩ (res, st3) hl
                    simp only [hl] at h
                    simp only [hl2]
                    cases res with
                    | error e => exact h
                    | ok rows => exact h
    · intro st sub r h
      rw [parseLoopG.eq_def] at h ⊢
      cases ho : parseOneG next f st sub true with
      | none => simp only [ho] at h; exact Option.noConfusion h
      | some val =>
        obtain ⟨res, st1⟩ := val
        have ho2 := ihOne st sub true (res, st1) ho
        simp only [ho] at h
        simp only [ho2]
        cases res with
        | error e => exact h
        | ok pr =>
          obtain ⟨term, rows⟩ := pr
          cases term with
          | blockEnd => exact h
          | eof =>
            cases hl : parseLoopG next f st1 sub with
            | none => simp only [hl] at h; exact Option.noConfusion h
            | some val2 =>
              obtain ⟨res2, st2⟩ := val2
              have hl2 := ihLoop st1 sub (res2, st2) hl
              simp only [hl] at h
              simp only [hl2]
              cases res2 with
              | error e => exact h
              | ok rows2 => exact h
          | yld =>
            cases hl : parseLoopG next f st1 sub with
            | none => simp only [hl] at h; exact Option.noConfusion h
            | some val2 =>
              obtain ⟨res2, st2⟩ := val2
              have hl2 := ihLoop st1 sub (res2, st2) hl
              simp only [hl] at h
              simp only [hl2]
              cases res2 with
              | error e => exact h
              | ok rows2 => exact h
    · intro st acc r h
      rw [parseTopG.eq_def] at h ⊢
      cases ho : parseOneG next f st .ROOT false with
      | none => simp only [ho] at h; exact Option.noConfusion h
      | some val =>
        obtain ⟨res, st1⟩ := val
        have ho2 := ihOne st .ROOT false (res, st1) ho
        simp only [ho] at h
        simp only [ho2]
        cases res with
        | error e => exact h
        | ok pr =>
          obtain ⟨term, rows⟩ := pr
          cases term with
          | blockEnd => exact h
          | yld => exact h
          | eof =>
            simp only at h ⊢
            exact ihTop st1 (acc ++ rows) r h

/-- Fuel monotonicity for the top-level loop, for any fuel increase. -/
theorem parseTopG_mono_le {σ : Type} (next : σ → Option Token × σ) {f g : Nat} (hfg : f ≤ g)
    (st : σ) (acc : List KeyValue) (r : (Except ParseError (List KeyValue)) × σ)
    (h : parseTopG next f st acc = some r) : parseTopG next g st acc = some r := by
  induction hfg with
  | refl => exact h
  | step _ ih => exact (parse_mono_aux next _).2.2 _ _ _ ih

/-- Fuel monotonicity for `parse` over a token list. -/
theorem parseF_mono {f g : Nat} (hfg : f ≤ g) (toks : List Token)
    (r : Except ParseError (List KeyValue))
    (h : parseF f toks = some r) : parseF g toks = some r := by
  unfold parseF parseG at h ⊢
  cases ht : parseTopG listNext f toks [] with
  | none => rw [ht] at h; exact Option.noConfusion h
  | some val =>
    rw [ht] at h
    rw [parseTopG_mono_le listNext hfg toks [] val ht]
    exact h

/-- Fuel monotonicity for `scan_parse`. -/
theorem scan_parse_mono {f g : Nat} (hfg : f ≤ g) (src : List Nat)
    (r : Except ScanParseError (List KeyValue))
    (h : scan_parse f src = some r) : scan_parse g src = some r := by
  unfold scan_parse parseG at h ⊢
  cases ht : parseTopG okNext f (OkState.new src) [] with
  | none => rw [ht] at h; exact Option.noConfusion h
  | some val =>
    rw [ht] at h
    rw [parseTopG_mono_le okNext hfg _ [] val ht]
    exact h

end ParserLemmas

section ScannerLemmas

theorem stringTail_unterminated_exhausted :
    ∀ s : Scanner, (stringTail s).1 = .error .UnterminatedString →
      (stringTail s).2.source.length ≤ (stringTail s).2.current := by
  intro s
  induction s using stringTail.induct with
  | case1 x h c hceq =>
    intro herr
    have hc : x.source[x.current] = 34 := hceq
    rw [stringTail.eq_def] at herr
    simp [h, hc] at herr
  | case2 x h c hne hceq ih =>
    intro herr
    have hc1 : ¬x.source[x.current] = 34 := hne
    have hc2 : x.source[x.current] = 92 := hceq
    have hstep : stringTail x = stringTail ⟨x.source, x.start, x.current + 2⟩ := by
      rw [stringTail.eq_def]
      simp [h, hc1, hc2]
    rw [hstep] at herr ⊢
    exact ih herr
  | case3 x h c hne1 hne2 ih =>
    intro herr
    have hc1 : ¬x.source[x.current] = 34 := hne1
    have hc2 : ¬x.source[x.current] = 92 := hne2
    have hstep : stringTail x = stringTail ⟨x.source, x.start, x.current + 1⟩ := by
      rw [stringTail.eq_def]
      simp [h, hc1, hc2]
    rw [hstep] at herr ⊢
    exact ih herr
  | case4 x h =>
    intro _
    have hstep : stringTail x = (.error .UnterminatedString, x) := by
      rw [stringTail.eq_def]
      simp [h]
    rw [hstep]
    show x.source.length ≤ x.current
    omega

theorem scannerNext_exhausted (s : Scanner) (hex : s.source.length ≤ s.current) :
    scannerNext s = (none, ⟨s.source, s.current, s.current + 1⟩) := by
  rw [scannerNext.eq_def]
  simp [show ¬s.current < s.source.length by omega]

theorem scannerNext_unterminated_exhausted :
    ∀ s s1 : Scanner, scannerNext s = (some (.error .UnterminatedString), s1) →
      s1.source.length ≤ s1.current := by
  intro s
  induction s using scannerNext.induct with
  | case1 x h c s' hws ih =>
    intro s1 herr
    have hws' : isAsciiWhitespace x.source[x.current] = true := hws
    have hstep : scannerNext x = scannerNext ⟨x.source, x.current, x.current + 1⟩ := by
      rw [scannerNext.eq_def]
      simp [h, hws']
    rw [hstep] at herr
    exact ih s1 herr
  | case2 x h c hnws hceq =>
    intro s1 herr
    have hnws' : ¬isAsciiWhitespace x.source[x.current] = true := hnws
    have hc : x.source[x.current] = 34 := hceq
    have hstep : scannerNext x =
        (some (stringTail ⟨x.source, x.current, x.current + 1⟩).1,
          (stringTail ⟨x.source, x.current, x.current + 1⟩).2) := by
      rw [scannerNext.eq_def]
      simp [h, hnws', hc, isAsciiWhitespace]
    rw [hstep] at herr
    have h1 : (stringTail ⟨x.source, x.current, x.current + 1⟩).1 = .error .UnterminatedString := by
      have := congrArg Prod.fst herr
      simpa using this
    have h2 : (stringTail ⟨x.source, x.current, x.current + 1⟩).2 = s1 := by
      have := congrArg Prod.snd herr
      simpa using this
    rw [← h2]
    exact stringTail_unterminated_exhausted _ h1
  | case3 x h c hnws hne1 hceq =>
    intro s1 herr
    have hnws' : ¬isAsciiWhitespace x.source[x.current] = true := hnws
    have hc1 : ¬x.source[x.current] = 34 := hne1
    have hc2 : x.source[x.current] = 123 := hceq
    rw [scannerNext.eq_def] at herr
    simp [h, hnws', hc1, hc2, isAsciiWhitespace] at herr
  | case4 x h c hnws hne1 hne2 hceq =>
    intro s1 herr
    have hnws' : ¬isAsciiWhitespace x.source[x.current] = true := hnws
    have hc1 : ¬x.source[x.current] = 34 := hne1
    have hc2 : ¬x.source[x.current] = 123 := hne2
    have hc3 : x.source[x.current] = 125 := hceq
    rw [scannerNext.eq_def] at herr
    simp [h, hnws', hc1, hc2, hc3, isAsciiWhitespace] at herr
  | case5 x h c hnws hne1 hne2 hne3 =>
    intro s1 herr
    have hnws' : ¬isAsciiWhitespace x.source[x.current] = true := hnws
    have hc1 : ¬x.source[x.current] = 34 := hne1
    have hc2 : ¬x.source[x.current] = 123 := hne2
    have hc3 : ¬x.source[x.current] = 125 := hne3
    simp only [isAsciiWhitespace, Bool.or_eq_true, beq_iff_eq] at hnws'
    push_neg at hnws'
    obtain ⟨⟨⟨⟨w1, w2⟩, w3⟩, w4⟩, w5⟩ := hnws'
    rw [scannerNext.eq_def] at herr
    simp [h, w1, w2, w3, w4, w5, hc1, hc2, hc3, isAsciiWhitespace] at herr
  | case6 x h =>
    intro s1 herr
    rw [scannerNext.eq_def] at herr
    simp [h] at herr

theorem iterateScanner_exhausted :
    ∀ (k : Nat) (s : Scanner), s.source.length ≤ s.current →
      (iterateScanner k s).1 = none := by
  intro k
  induction k with
  | zero =>
    intro s hex
    simp [iterateScanner, scannerNext_exhausted s hex]
  | succ k2 ih =>
    intro s hex
    have hnext := scannerNext_exhausted s hex
    simp only [iterateScanner, hnext]
    exact ih ⟨s.source, s.current, s.current + 1⟩ (by show s.source.length ≤ s.current + 1; omega)

end ScannerLemmas

/-- On the empty token sequence `parse` never returns: `parse_one`
immediately reports `Eof`, and the top-level loop breaks only on a result
different from `Eof`, so it calls `parse_one` again forever. -/
theorem parseF_nil_none : ∀ fuel : Nat, parseF fuel [] = none := by
  intro fuel
  simp [parseF, parseG, parseTopG_stuck listNext ([] : List Token) rfl]

/-- On the token sequence `"a" \x7b`, `parse_one` enters the subkeys loop
with the token source exhausted; the loop treats every `Eof` as one more
iteration, so `parse_one` (and `parse`) never returns. -/
theorem parseOneG_unterminated (fuel : Nat) (p : ExprId) :
    parseOneG listNext fuel toksUnterminated p false = none := by
  cases fuel with
  | zero => rfl
  | succ f =>
    rw [parseOneG.eq_def]
    simp [toksUnterminated, listNext, parseLoopG_stuck listNext ([] : List Token) rfl]

/-- `parse` of `"a" \x7b` never returns, for any fuel. -/
theorem parseF_unterminated_none : ∀ fuel : Nat, parseF fuel toksUnterminated = none := by
  intro fuel
  cases fuel with
  | zero => rfl
  | succ f =>
    unfold parseF parseG
    rw [parseTopG.eq_def]
    simp [parseOneG_unterminated]

/-- C1: the claim states that `parse` is total - that it terminates on
every finite token sequence (in particular on the empty sequence and on a
sequence whose last group is unterminated) - but the code diverges on the
empty sequence: the top-level loop `if parse_one(..)? != Eof break` spins
forever on `Eof`, so no iteration bound (fuel) makes `parse` return. -/
theorem c1_parse_not_total_on_empty : ∀ fuel : Nat, parseF fuel [] = none :=
  parseF_nil_none

/-- C2: the claim states one row per top-level entry for any number of
entries and an empty document for the empty sequence.  In fact: a single
entry `"k" "v"` does produce exactly the claimed row, but a two-entry
sequence produces only the first entry's row (the top-level loop breaks on
the first `Yield`), and the empty sequence makes `parse` diverge. -/
theorem c2_parse_entry_count :
    (∀ extra : Nat, parseF (3 + extra) toksKV =
        some (.ok [⟨.ROOT, bytes "k", .string (bytes "v")⟩]))
    ∧ (∀ extra : Nat, parseF (3 + extra) toksKV2 =
        some (.ok [⟨.ROOT, bytes "k1", .string (bytes "v1")⟩]))
    ∧ (∀ fuel : Nat, parseF fuel [] = none) := by
  refine ⟨?_, ?_, parseF_nil_none⟩
  · intro extra
    exact @parseF_mono 3 (3 + extra) (by omega) toksKV _ (by decide)
  · intro extra
    exact @parseF_mono 3 (3 + extra) (by omega) toksKV2 _ (by decide)

/-- C3: the claim states `Username::try_from` accepts exactly the byte
strings of length 3 to 32 over `[A-Za-z0-9_]` (lowercase-folding them).
The `src/lib.rs` implementation does; but the `src/username.rs`
implementation tests `len >= MAX_LEN` / `len <= MIN_LEN`, so it rejects
the legal length-3 input `abc` with `TooShort` and a legal length-32
input with `TooLong`, contradicting its own documentation. -/
theorem c3_username_boundary_lengths :
    usernameRsTryFrom (bytes "abc") = .error .TooShort
    ∧ usernameRsTryFrom (bytes "abcdefghijklmnopqrstuvwxyz_01234") = .error .TooLong
    ∧ (usernameRsTryFrom (bytes "abcd")).map Username.as_bytes = .ok (bytes "abcd")
    ∧ (libTryFrom (bytes "abc")).map Username.as_bytes = .ok (bytes "abc")
    ∧ (libTryFrom (bytes "AbC")).map Username.as_bytes = .ok (bytes "abc")
    ∧ (libTryFrom (bytes "abcdefghijklmnopqrstuvwxyz_01234")).map Username.as_bytes
        = .ok (bytes "abcdefghijklmnopqrstuvwxyz_01234")
    ∧ libTryFrom (bytes "ab") = .error .TooShort
    ∧ libTryFrom (bytes "abcdefghijklmnopqrstuvwxyz_012345") = .error .TooLong
    ∧ libTryFrom (bytes "ab?c") = .error .IllegalCharacters := by
  refine ⟨by decide, by decide, by decide, by decide, by decide, by decide, by decide,
    by decide, by decide⟩

/-- C5 counterexample: a graceful-restart run whose wait-for-exit step
fails with a `WaitSteamExit` error still invokes `launch_fast`: the
composition reports the failure and proceeds to launch, so launch is not
"never invoked afterwards" as the claim states. -/
theorem c5_counterexample :
    restartSteam true false (.error (.WaitSteamExit 5)) (.ok true) (.ok ()) (.ok ())
      = [.callShutdownPoll, .reportKillFailed (.WaitSteamExit 5), .callLaunchFast,
         .reportLaunched]
    ∧ RestartEvent.callLaunchFast ∈
        restartSteam true false (.error (.WaitSteamExit 5)) (.ok true) (.ok ()) (.ok ()) := by
  refine ⟨by decide, by decide⟩

/-- C5 (amended): whenever the graceful shutdown/wait-for-exit step fails
(with any error, `WaitSteamExit` included), the composition reports that
error and then still invokes `launch` (when verifying) or `launch_fast`:
the failure is reported, not fatal. -/
theorem c5_wait_failure_reported_then_launch (e : SteamError) (verify : Bool)
    (kr : Except SteamError Bool) (lr lfr : Except SteamError Unit) :
    (restartSteam true verify (.error e) kr lr lfr).take 3
      = [.callShutdownPoll, .reportKillFailed e,
         if verify then RestartEvent.callLaunch else RestartEvent.callLaunchFast] := by
  cases verify <;> rfl

/-- C10: the first row in document order whose parent and key match decides
both queries regardless of its value kind: if that first match holds a
string value then `subkeys` returns `none` even when a later matching row
holds a subkey group, and symmetrically `value_str` returns `none` when
the first match holds a subkey group even when a later matching row holds
a string. -/
theorem c10_first_match_decides :
    (∀ (doc : Document) (a : ExprId) (k : List Nat) (i j : Nat)
        (hi : i < doc.length) (hj : j < doc.length) (s : List Nat) (g : ExprId),
        i < j →
        (∀ m (hm : m < doc.length), m < i →
          ¬((doc.get ⟨m, hm⟩).parent = a ∧ (doc.get ⟨m, hm⟩).key = k)) →
        doc.get ⟨i, hi⟩ = ⟨a, k, .string s⟩ →
        (doc.get ⟨j, hj⟩).parent = a → (doc.get ⟨j, hj⟩).key = k →
        (doc.get ⟨j, hj⟩).value = .subkeys g →
        doc.subkeys a k = none)
    ∧ (∀ (doc : Document) (a : ExprId) (k : List Nat) (i j : Nat)
        (hi : i < doc.length) (hj : j < doc.length) (s : List Nat) (g : ExprId),
        i < j →
        (∀ m (hm : m < doc.length), m < i →
          ¬((doc.get ⟨m, hm⟩).parent = a ∧ (doc.get ⟨m, hm⟩).key = k)) →
        doc.get ⟨i, hi⟩ = ⟨a, k, .subkeys g⟩ →
        (doc.get ⟨j, hj⟩).parent = a → (doc.get ⟨j, hj⟩).key = k →
        (doc.get ⟨j, hj⟩).value = .string s →
        doc.value_str a k = none) := by
  constructor
  · intro doc
    induction doc with
    | nil => intro a k i j hi; exact absurd hi (by simp)
    | cons r rest ih =>
      intro a k i j hi hj s g hij hfirst hrow hjp hjk hjv
      cases i with
      | zero =>
        simp only [List.get] at hrow
        subst hrow
        simp [Document.subkeys]
      | succ i2 =>
        have hnr : ¬(r.parent = a ∧ r.key = k) := by
          have := hfirst 0 (by simp) (by omega)
          simpa using this
        cases j with
        | zero => omega
        | succ j2 =>
          rw [Document.subkeys]
          rw [if_neg hnr]
          exact ih a k i2 j2 (by simpa using hi) (by simpa using hj) s g (by omega)
            (fun m hm hmi => by simpa using hfirst (m + 1) (by simpa using hm) (by omega))
            (by simpa using hrow) (by simpa using hjp) (by simpa using hjk) (by simpa using hjv)
  · intro doc
    induction doc with
    | nil => intro a k i j hi; exact absurd hi (by simp)
    | cons r rest ih =>
      intro a k i j hi hj s g hij hfirst hrow hjp hjk hjv
      cases i with
      | zero =>
        simp only [List.get] at hrow
        subst hrow
        simp [Document.value_str]
      | succ i2 =>
        have hnr : ¬(r.parent = a ∧ r.key = k) := by
          have := hfirst 0 (by simp) (by omega)
          simpa using this
        cases j with
        | zero => omega
        | succ j2 =>
          rw [Document.value_str]
          rw [if_neg hnr]
          exact ih a k i2 j2 (by simpa using hi) (by simpa using hj) s g (by omega)
            (fun m hm hmi => by simpa using hfirst (m + 1) (by simpa using hm) (by omega))
            (by simpa using hrow) (by simpa using hjp) (by simpa using hjk) (by simpa using hjv)

/-- C10 witness: concrete shadowed documents on which the theorem applies. -/
theorem c10_witness :
    Document.subkeys docStringFirst ⟨1⟩ (bytes "x") = none
    ∧ Document.value_str docSubkeysFirst ⟨1⟩ (bytes "x") = none := by
  constructor
  · exact c10_first_match_decides.1 docStringFirst ⟨1⟩ (bytes "x") 0 1 (by decide) (by decide)
      (bytes "v") ⟨9⟩ (by decide) (fun m hm hmi => absurd hmi (by omega))
      (by decide) (by decide) (by decide) (by decide)
  · exact c10_first_match_decides.2 docSubkeysFirst ⟨1⟩ (bytes "x") 0 1 (by decide) (by decide)
      (bytes "v") ⟨9⟩ (by decide) (fun m hm hmi => absurd hmi (by omega))
      (by decide) (by decide) (by decide) (by decide)

/-- C4 counterexample: a document whose FIRST top-level `users` row is a
string row fails with `ExpectedUsersSubkeys` even though a later top-level
`users` row is a subkey group, so extraction does not fail "if and only if
the document has no top-level users subkey group". -/
theorem c4_counterexample :
    LoginUser.from_vdf docShadow = .error .ExpectedUsersSubkeys
    ∧ (⟨.ROOT, bytes "users", .subkeys ⟨7⟩⟩ : KeyValue) ∈ docShadow := by
  refine ⟨by decide, by decide⟩

set_option maxRecDepth 8000 in
set_option maxHeartbeats 1000000 in
/-- C4 (amended): extraction fails with `ExpectedUsersSubkeys` if and only
if `subkeys(ROOT, "users")` resolves to nothing (the first top-level
`users` row, if any, is not a subkey group); otherwise it yields one
result per direct child row of the resolved group, in document order, each
extracted as the record-extractor contract describes; in particular the
parsed document of `"users" (( "1" (( "AccountName" "alice" "PersonaName"
"Alice" )) ))` yields exactly one record. -/
theorem c4_from_vdf_characterisation :
    (∀ doc : Document,
      LoginUser.from_vdf doc = .error .ExpectedUsersSubkeys ↔
        doc.subkeys .ROOT (bytes "users") = none)
    ∧ (∀ (doc : Document) (g : ExprId),
        doc.subkeys .ROOT (bytes "users") = some g →
        LoginUser.from_vdf doc =
          .ok ((doc.filter (fun row => decide (row.parent = g))).map (specExtractUser doc)))
    ∧ scanListF 11 (Scanner.new usersSrc) = usersToks.map .ok
    ∧ (∀ extra : Nat, parseF (20 + extra) usersToks = some (.ok usersDoc))
    ∧ LoginUser.from_vdf usersDoc = .ok [.ok ⟨bytes "alice", bytes "Alice", false⟩] := by
  refine ⟨?_, ?_, ?_, ?_, by decide⟩
  · intro doc
    cases h : doc.subkeys .ROOT (bytes "users") with
    | none => simp [LoginUser.from_vdf, h]
    | some g => simp [LoginUser.from_vdf, h]
  · intro doc g h
    simp only [LoginUser.from_vdf, h]
    congr 1
    apply List.map_congr_left
    intro row hrow
    cases hv : row.value with
    | string s => simp [specExtractUser, hv]
    | subkeys k =>
      cases ha : doc.value_str k (bytes "AccountName") with
      | none => simp [specExtractUser, hv, ha]
      | some u =>
        cases hp : doc.value_str k (bytes "PersonaName") with
        | none => simp [specExtractUser, hv, ha, hp]
        | some n =>
          cases hal : doc.value_str k (bytes "AllowAutoLogin") with
          | none => simp [specExtractUser, hv, ha, hp, hal]
          | some v => simp [specExtractUser, hv, ha, hp, hal]
  · have hsrc : usersSrc = [34, 117, 115, 101, 114, 115, 34, 32, 123, 32, 34, 49, 34, 32,
        123, 32, 34, 65, 99, 99, 111, 117, 110, 116, 78, 97, 109, 101, 34, 32, 34, 97, 108,
        105, 99, 101, 34, 32, 34, 80, 101, 114, 115, 111, 110, 97, 78, 97, 109, 101, 34, 32,
        34, 65, 108, 105, 99, 101, 34, 32, 125, 32, 125] := rfl
    simp [scanListF, scannerNext, stringTail, isAsciiWhitespace, Scanner.new, Scanner.token,
      hsrc, usersToks, bytes]
  · intro extra
    exact @parseF_mono 20 (20 + extra) (by omega) usersToks _ (by decide)

/-- C4 witness: the characterisation applied to the parsed example
document. -/
theorem c4_witness :
    LoginUser.from_vdf usersDoc =
      .ok ((usersDoc.filter (fun row => decide (row.parent = (⟨0⟩ : ExprId)))).map
        (specExtractUser usersDoc)) :=
  c4_from_vdf_characterisation.2.1 usersDoc ⟨0⟩ (by decide)

/-- A pull on an exhausted token source reports `Eof` with the source in
its post-pull state. -/
theorem parseOneG_eof {σ : Type} (next : σ → Option Token × σ) (st st' : σ)
    (hst : next st = (none, st')) (fuel : Nat) (p : ExprId) (b : Bool) :
    parseOneG next (fuel + 1) st p b = some (.ok (.eof, []), st') := by
  rw [parseOneG.eq_def]
  simp [hst]

set_option maxRecDepth 4000 in
/-- C6 counterexample: after yielding `UnexpectedToken` on the source
`a\x7b`, the very next `Scanner::next` call yields the `\x7b` token, not
`None`: the scanner sequence is not exhausted by its first error. -/
theorem c6_counterexample :
    (scannerNext (Scanner.new (bytes "a\x7b"))).1 = some (.error (.UnexpectedToken 97))
    ∧ (scannerNext (scannerNext (Scanner.new (bytes "a\x7b"))).2).1
        = some (.ok ⟨.braceLeft, bytes "\x7b", 1⟩) := by
  constructor
  · simp [scannerNext, isAsciiWhitespace, Scanner.new, bytes]
  · simp [scannerNext, isAsciiWhitespace, Scanner.new, Scanner.token, bytes]

/-- C6 (amended): after an `UnterminatedString` error the scanner is
exhausted - every subsequent `next` call returns `None` - and the
`OkIter`-wrapped token stream that `scan_parse` feeds to the parser yields
`None` forever after any first error has been recorded; after a plain
`UnexpectedToken` error the bare scanner may yield further items (see the
counterexample). -/
theorem c6_scanner_stop_behaviour :
    (∀ (s s1 : Scanner) (k : Nat),
        scannerNext s = (some (.error .UnterminatedString), s1) →
        (iterateScanner k s1).1 = none)
    ∧ (∀ (st : OkState) (e : ScanError), st.error = some e → okNext st = (none, st)) := by
  constructor
  · intro s s1 k herr
    exact iterateScanner_exhausted k s1 (scannerNext_unterminated_exhausted s s1 herr)
  · intro st e he
    simp [okNext, he]

/-- C6 witness: the scanner state after scanning the unterminated string
`\x22abc` yields nothing, and an `OkIter` with a recorded error yields
nothing. -/
theorem c6_witness :
    (iterateScanner 0 ⟨bytes "\x22abc", 0, 4⟩).1 = none
    ∧ okNext ⟨Scanner.new [], some .UnterminatedString⟩
        = (none, ⟨Scanner.new [], some .UnterminatedString⟩) := by
  constructor
  · exact c6_scanner_stop_behaviour.1 (Scanner.new (bytes "\x22abc")) ⟨bytes "\x22abc", 0, 4⟩ 0
      (by simp [scannerNext, stringTail, isAsciiWhitespace, Scanner.new, bytes])
  · exact c6_scanner_stop_behaviour.2 ⟨Scanner.new [], some .UnterminatedString⟩
      .UnterminatedString rfl

set_option maxRecDepth 4000 in
/-- C7 counterexample: on the source `\x7d@` the scanner's token stream
does contain an error (`UnexpectedToken @`), yet `scan_parse` returns the
parse error for the leading `\x7d` - the parser fails before the scan
error is reached, so the scan error does not take precedence. -/
theorem c7_counterexample :
    scanListF 3 (Scanner.new srcBraceAt)
      = [.ok ⟨.braceRight, bytes "\x7d", 0⟩, .error (.UnexpectedToken 64)]
    ∧ scan_parse 9 srcBraceAt = some (.error (.ParseError .UnexpectedBraceRightNoMatch))
    ∧ scan_parse 9 srcBraceAt ≠ some (.error (.ScanError (.UnexpectedToken 64))) := by
  have hval : scan_parse 9 srcBraceAt
      = some (.error (.ParseError .UnexpectedBraceRightNoMatch)) := by
    simp [scan_parse, parseG, parseTopG, parseOneG, okNext, scannerNext, stringTail,
      isAsciiWhitespace, OkState.new, Scanner.new, Scanner.token, srcBraceAt, bytes]
  refine ⟨?_, hval, ?_⟩
  · simp [scanListF, scannerNext, isAsciiWhitespace, Scanner.new, Scanner.token,
      srcBraceAt, bytes]
  · rw [hval]
    decide

set_option maxRecDepth 4000 in
/-- C7 (amended): `scan_parse` surfaces the first scan error exactly when
the parser's run pulls the token stream at the position where scanning
fails: on `"a" @` the parser pulls past the last good token wanting a key
value, the error is recorded, and `scan_parse` returns it (overriding the
parser's `ExpectedKeyValueAfterKeyName`); on `\x7d@` the parser fails on
the first token before the scan error is reached and its parse error is
returned instead; on `@`, where the error is pulled in key position, the
parser sees `Eof`, its top-level loop spins forever, and `scan_parse`
never returns. -/
theorem c7_scan_error_surfacing :
    (∀ extra : Nat, scan_parse (3 + extra) srcKeyValueAt
        = some (.error (.ScanError (.UnexpectedToken 64))))
    ∧ (∀ extra : Nat, scan_parse (3 + extra) srcBraceAt
        = some (.error (.ParseError .UnexpectedBraceRightNoMatch)))
    ∧ (∀ fuel : Nat, scan_parse fuel srcAt = none) := by
  refine ⟨?_, ?_, ?_⟩
  · intro extra
    refine @scan_parse_mono 3 (3 + extra) (by omega) srcKeyValueAt _ ?_
    simp [scan_parse, parseG, parseTopG, parseOneG, okNext, scannerNext, stringTail,
      isAsciiWhitespace, OkState.new, Scanner.new, Scanner.token, srcKeyValueAt, bytes]
  · intro extra
    refine @scan_parse_mono 3 (3 + extra) (by omega) srcBraceAt _ ?_
    simp [scan_parse, parseG, parseTopG, parseOneG, okNext, scannerNext, stringTail,
      isAsciiWhitespace, OkState.new, Scanner.new, Scanner.token, srcBraceAt, bytes]
  · intro fuel
    cases fuel with
    | zero => rfl
    | succ f =>
      unfold scan_parse parseG
      rw [parseTopG.eq_def]
      cases f with
      | zero => rfl
      | succ g =>
        have hok : okNext (OkState.new srcAt)
            = (none, ⟨⟨srcAt, 0, 1⟩, some (.UnexpectedToken 64)⟩) := by
          simp [okNext, OkState.new, scannerNext, Scanner.new, srcAt, bytes,
            isAsciiWhitespace]
        have hstuck := parseTopG_stuck okNext ⟨⟨srcAt, 0, 1⟩, some (.UnexpectedToken 64)⟩
          (by simp [okNext]) ([] : List KeyValue) (g + 1)
        simp [parseOneG_eof okNext _ _ hok g, hstuck]

set_option maxRecDepth 4000 in
/-- C8: scanning `"outer" (( "inner" "val" ))` yields the five expected
tokens; parsing them yields exactly two rows - a `SubkeyGroup` row under
`ROOT` keyed `outer` with the fresh id `⟨0⟩` (distinct from `ROOT`),
followed by a `String` row with parent `⟨0⟩` keyed `inner` valued `val` -
and on that document `subkeys(ROOT, "outer")` returns the group id and
`value_str` of `inner` under it returns `val`. -/
theorem c8_outer_inner_document :
    scanListF 6 (Scanner.new src8) = toks8.map .ok
    ∧ (∀ extra : Nat, parseF (9 + extra) toks8 = some (.ok doc8))
    ∧ Document.subkeys doc8 .ROOT (bytes "outer") = some ⟨0⟩
    ∧ Document.value_str doc8 ⟨0⟩ (bytes "inner") = some (bytes "val")
    ∧ (⟨0⟩ : ExprId) ≠ ExprId.ROOT := by
  refine ⟨?_, ?_, by decide, by decide, by decide⟩
  · have hsrc : src8 = [34, 111, 117, 116, 101, 114, 34, 32, 123, 32, 34, 105, 110, 110, 101,
        114, 34, 32, 34, 118, 97, 108, 34, 32, 125] := rfl
    simp [scanListF, scannerNext, stringTail, isAsciiWhitespace, Scanner.new, Scanner.token,
      hsrc, toks8, bytes]
  · intro extra
    exact @parseF_mono 9 (9 + extra) (by omega) toks8 _ (by decide)

section UsernameGeneral

/-- When every byte is legal, the validation/copy loop lowercases the
whole input. -/
theorem lowerLegal_ok (l : List Nat) (h : ∀ c ∈ l, legalUsernameByte c = true) :
    lowerLegal l = .ok (l.map toLowerByte) := by
  induction l with
  | nil => rfl
  | cons c cs ih =>
    simp only [lowerLegal, h c (by simp), if_true, List.map_cons]
    rw [ih (fun d hd => h d (by simp [hd]))]
    rfl

/-- When some byte is illegal, the validation/copy loop reports
`IllegalCharacters`. -/
theorem lowerLegal_err (l : List Nat) (h : ∃ c ∈ l, ¬legalUsernameByte c = true) :
    lowerLegal l = .error .IllegalCharacters := by
  induction l with
  | nil => simp at h
  | cons c cs ih =>
    by_cases hc : legalUsernameByte c = true
    · have hcs : ∃ d ∈ cs, ¬legalUsernameByte d = true := by
        obtain ⟨d, hd, hnd⟩ := h
        rcases List.mem_cons.mp hd with rfl | hd2
        · exact absurd hc hnd
        · exact ⟨d, hd2, hnd⟩
      simp [lowerLegal, hc, ih hcs, Except.map]
    · simp [lowerLegal, hc]

/-- The `src/lib.rs` `Username::try_from` satisfies the claimed contract in
full: length below 3 gives `TooShort`, above 32 gives `TooLong`, an
in-range input with an illegal byte gives `IllegalCharacters`, and an
in-range all-legal input succeeds with `as_bytes` the lowercase-folded
input. -/
theorem libTryFrom_spec (l : List Nat) :
    (l.length < 3 → libTryFrom l = .error .TooShort)
    ∧ (32 < l.length → libTryFrom l = .error .TooLong)
    ∧ (3 ≤ l.length → l.length ≤ 32 → (∀ c ∈ l, legalUsernameByte c = true) →
        (libTryFrom l).map Username.as_bytes = .ok (l.map toLowerByte))
    ∧ (3 ≤ l.length → l.length ≤ 32 → (∃ c ∈ l, ¬legalUsernameByte c = true) →
        libTryFrom l = .error .IllegalCharacters) := by
  refine ⟨?_, ?_, ?_, ?_⟩
  · intro hlt
    simp [libTryFrom, show ¬32 < l.length by omega, hlt]
  · intro hgt
    simp [libTryFrom, hgt]
  · intro h3 h32 hleg
    have hlow := lowerLegal_ok l hleg
    simp only [libTryFrom, show ¬32 < l.length by omega, if_false,
      show ¬l.length < 3 by omega, hlow]
    simp only [Except.map, Username.as_bytes, Username.as_bytes_with_nul]
    have hlen : (l.map toLowerByte ++ [0]).length = l.length + 1 := by simp
    rw [List.take_of_length_le (by omega)]
    rw [List.dropLast_concat]
  · intro h3 h32 hill
    simp [libTryFrom, show ¬32 < l.length by omega, show ¬l.length < 3 by omega,
      lowerLegal_err l hill, Except.map]

/-- The `src/username.rs` `Username::try_from` accepts exactly lengths 4
to 31: `32 <= len` gives `TooLong`, `len <= 3` gives `TooShort`, and for
`4 <= len <= 31` it behaves like the `src/lib.rs` version. -/
theorem usernameRsTryFrom_spec (l : List Nat) :
    (l.length ≤ 3 → usernameRsTryFrom l = .error .TooShort)
    ∧ (32 ≤ l.length → usernameRsTryFrom l = .error .TooLong)
    ∧ (4 ≤ l.length → l.length ≤ 31 → (∀ c ∈ l, legalUsernameByte c = true) →
        (usernameRsTryFrom l).map Username.as_bytes = .ok (l.map toLowerByte))
    ∧ (4 ≤ l.length → l.length ≤ 31 → (∃ c ∈ l, ¬legalUsernameByte c = true) →
        usernameRsTryFrom l = .error .IllegalCharacters) := by
  refine ⟨?_, ?_, ?_, ?_⟩
  · intro hle
    simp [usernameRsTryFrom, show ¬32 ≤ l.length by omega, hle]
  · intro hge
    simp [usernameRsTryFrom, hge]
  · intro h4 h31 hleg
    have hlow := lowerLegal_ok l hleg
    simp only [usernameRsTryFrom, show ¬32 ≤ l.length by omega, if_false,
      show ¬l.length ≤ 3 by omega, hlow]
    simp only [Except.map, Username.as_bytes, Username.as_bytes_with_nul]
    rw [List.take_of_length_le (by simp)]
    rw [List.dropLast_concat]
  · intro h4 h31 hill
    simp [usernameRsTryFrom, show ¬32 ≤ l.length by omega, show ¬l.length ≤ 3 by omega,
      lowerLegal_err l hill, Except.map]

end UsernameGeneral

/-- C9: parsing a lone `\x7d` fails with `UnexpectedBraceRightNoMatch` and a
lone `\x7b` fails with `UnexpectedBraceLeftNoName`, as claimed; but parsing
`"a" \x7b` does NOT return `ExpectedKeyValueAfterKeyName` - the subkeys
loop turns the end of input into endless `Eof` iterations, so `parse`
never returns on that sequence. -/
theorem c9_parse_error_cases :
    (∀ fuel : Nat, parseF fuel toksUnterminated = none)
    ∧ (∀ extra : Nat, parseF (2 + extra) [tokBraceRight]
        = some (.error .UnexpectedBraceRightNoMatch))
    ∧ (∀ extra : Nat, parseF (2 + extra) [tokBraceLeft]
        = some (.error .UnexpectedBraceLeftNoName)) := by
  refine ⟨parseF_unterminated_none, ?_, ?_⟩
  · intro extra
    exact @parseF_mono 2 (2 + extra) (by omega) [tokBraceRight] _ (by decide)
  · intro extra
    exact @parseF_mono 2 (2 + extra) (by omega) [tokBraceLeft] _ (by decide)
